import Mathlib

/-!
Verification of the text-shaping and race/deadline logic of the
poczytajmy-backend service.  The JavaScript source is shallowly embedded:
strings become `List Char` (Unicode scalar values), the pieces of the
regular expressions actually used by the code become explicit character
predicates and scanners, and the race-with-deadline dispatcher becomes a
deterministic settlement model.  Definitions follow `src/index.js` (main
deployable) and the variant file holding the motivation endpoint and the
ASR accuracy scoring.
-/

namespace Poczytajmy

/-- Model of the ECMAScript `\s` character class (the whitespace characters
a JS regex treats as spaces); covers the code points exercised here. -/
def jsIsSpace (c : Char) : Bool :=
  c = ' ' || c = '\t' || c = '\n' || c = '\r' ||
  c = Char.ofNat 0x0B || c = Char.ofNat 0x0C ||
  c = Char.ofNat 0xA0 || c = Char.ofNat 0x1680 ||
  c = Char.ofNat 0x2028 || c = Char.ofNat 0x2029 ||
  c = Char.ofNat 0x202F || c = Char.ofNat 0x205F ||
  c = Char.ofNat 0x3000 || c = Char.ofNat 0xFEFF

/-- Model of `String.prototype.toLowerCase` restricted to ASCII and the
Polish alphabet (identity elsewhere); exact on every code point the
claims and the repository's own string literals use. -/
def polLower (c : Char) : Char :=
  if 'A' ≤ c ∧ c ≤ 'Z' then Char.ofNat (c.toNat + 32)
  else if c = 'Ą' then 'ą'
  else if c = 'Ć' then 'ć'
  else if c = 'Ę' then 'ę'
  else if c = 'Ł' then 'ł'
  else if c = 'Ń' then 'ń'
  else if c = 'Ó' then 'ó'
  else if c = 'Ś' then 'ś'
  else if c = 'Ź' then 'ź'
  else if c = 'Ż' then 'ż'
  else c

/-- ASCII letter test. -/
def isAsciiLetter (c : Char) : Bool :=
  ('a' ≤ c ∧ c ≤ 'z') || ('A' ≤ c ∧ c ≤ 'Z')

/-- Model of the regex class `\p{L}` restricted to ASCII, Latin-1 letters
and the Polish alphabet (the code points exercised by this repository). -/
def jsLetter (c : Char) : Bool :=
  isAsciiLetter c ||
  (0xC0 ≤ c.toNat ∧ c.toNat ≤ 0x24F ∧ c.toNat ≠ 0xD7 ∧ c.toNat ≠ 0xF7)

/-- ECMAScript word character for `\b` boundaries: `[A-Za-z0-9_]` only —
the `u` flag does not make `\b` Unicode-aware. -/
def isWordChar (c : Char) : Bool :=
  isAsciiLetter c || c.isDigit || c = '_'

/-- Word-character test on the optional character beside a `\b` position
(string edge counts as non-word). -/
def isWordOpt : Option Char → Bool
  | some c => isWordChar c
  | none => false

/-- Drop the longest suffix satisfying `p` (via reversal). -/
def rdropWhile (p : Char → Bool) (l : List Char) : List Char :=
  (l.reverse.dropWhile p).reverse

/-- Model of `String.prototype.trim`. -/
def jsTrim (l : List Char) : List Char :=
  rdropWhile jsIsSpace (l.dropWhile jsIsSpace)

/-- Model of `.replace(/\s+/g, ' ')`: every whitespace run collapses to a
single space. -/
def squeeze : List Char → List Char
  | [] => []
  | [c] => if jsIsSpace c then [' '] else [c]
  | c :: d :: rest =>
    if jsIsSpace c then
      if jsIsSpace d then squeeze (d :: rest)
      else ' ' :: squeeze (d :: rest)
    else c :: squeeze (d :: rest)

/-- Split on every single `' '` (model of `.split(' ')`); parts kept in
order, empty parts included (callers filter them, as `filter(Boolean)`
does). -/
def splitSpGo (cur : List Char) : List Char → List (List Char)
  | [] => [cur.reverse]
  | c :: cs => if c = ' ' then cur.reverse :: splitSpGo [] cs
               else splitSpGo (c :: cur) cs

/-- Tokens of an already-normalized string: `.split(' ').filter(Boolean)`. -/
def spaceTokens (l : List Char) : List (List Char) :=
  (splitSpGo [] l).filter (· ≠ [])

/-- The punctuation removed by `normalize` in `src/index.js`:
`/[„”"!?.,;:()\-–—[\]{}…]/g`. -/
def isNormPunc (c : Char) : Bool :=
  c = '„' || c = '”' || c = '"' || c = '!' || c = '?' || c = '.' ||
  c = ',' || c = ';' || c = ':' || c = '(' || c = ')' || c = '-' ||
  c = '–' || c = '—' || c = '[' || c = ']' ||
  c = Char.ofNat 0x7B || c = Char.ofNat 0x7D || c = '…'

/-- `normalize` from `src/index.js`: lowercase, strip the fixed punctuation,
collapse whitespace, trim. -/
def normalize (l : List Char) : List Char :=
  jsTrim (squeeze ((l.map polLower).filter (fun c => !isNormPunc c)))

/-- The token set `new Set(normalize(x).split(' ').filter(Boolean))`. -/
def tokenSet (l : List Char) : Finset (List Char) :=
  (spaceTokens (normalize l)).toFinset

/-- `jaccard` from `src/index.js`: similarity of the two token sets; two
empty token sets count as maximally similar.  The JS float quotient
`inter / (A.size + B.size - inter)` is modelled as the exact rational
`mkRat inter (|A| + |B| - inter)`. -/
def jaccard (a b : List Char) : ℚ :=
  let A := tokenSet a
  let B := tokenSet b
  if A.card = 0 ∧ B.card = 0 then 1
  else mkRat ((A ∩ B).card : ℤ) (A.card + B.card - (A ∩ B).card)

/-- One step of the `chooseMostNovel` loop: keep the candidate whose worst
(maximum) similarity against history is strictly lowest. -/
def novelStep (history : List (List Char)) (acc : List Char × ℚ)
    (c : List Char) : List Char × ℚ :=
  let maxSim := (history.map (fun h => jaccard c h)).foldl max 0
  if maxSim < acc.2 then (c, maxSim) else acc

/-- `chooseMostNovel` from `src/index.js`.  An absent (`null`) history is
modelled as the empty list, matching `!history || history.length === 0`. -/
def chooseMostNovel (cands history : List (List Char)) : List Char :=
  if history.isEmpty then cands.headD []
  else
    let best := (cands.foldl (novelStep history) ([], 1)).1
    if best.isEmpty then cands.headD [] else best

/-! ### Candidate parsing (`parseList` in `src/index.js`) -/

/-- Inside `splitNLGo` the accumulator is reversed; when a `'\n'` closes a
line, a directly preceding `'\r'` is part of the `/\r?\n/` separator. -/
def dropCR (cur : List Char) : List Char :=
  match cur with
  | '\r' :: rest => rest
  | _ => cur

/-- Model of `.split(/\r?\n/)`. -/
def splitNLGo (cur : List Char) : List Char → List (List Char)
  | [] => [cur.reverse]
  | c :: cs =>
    if c = '\n' then (dropCR cur).reverse :: splitNLGo [] cs
    else splitNLGo (c :: cur) cs

/-- Characters of the leading list-marker class `[-*\d.)]`. -/
def isMarkerChar (c : Char) : Bool :=
  c = '-' || c = '*' || c.isDigit || c = '.' || c = ')'

/-- Model of `.replace(/^[-*\d.)]+\s*/, '')`: the marker run must be
non-empty for the anchored pattern to match at all. -/
def stripMarker (l : List Char) : List Char :=
  match l with
  | [] => []
  | c :: _ =>
    if isMarkerChar c then (l.dropWhile isMarkerChar).dropWhile jsIsSpace
    else l

/-- `Array.from(new Set(items))`: deduplicate keeping the first occurrence
of each element.  Written with fuel (`fuel ≥ length` at the top call) so
that the recursion is structural and kernel-evaluable. -/
def dedupFirstGo : Nat → List (List Char) → List (List Char)
  | 0, l => l
  | _ + 1, [] => []
  | fuel + 1, x :: xs => x :: dedupFirstGo fuel (xs.filter (· ≠ x))

/-- First-occurrence deduplication, as a JS `Set` iterates. -/
def dedupFirst (l : List (List Char)) : List (List Char) :=
  dedupFirstGo l.length l

/-- `normalize(s).split(' ').filter(Boolean).length`: the word count used
by the `[5, 16]` filter of `parseList`. -/
def wordCount (s : List Char) : Nat :=
  (spaceTokens (normalize s)).length

/-- `parseList` from `src/index.js`: split into lines, trim, drop empties,
strip leading list markers, drop empties, deduplicate, keep word counts in
`[5, 16]`, cap at 20. -/
def parseList (t : List Char) : List (List Char) :=
  let lines := ((splitNLGo [] t).map jsTrim).filter (· ≠ [])
  let items := (lines.map stripMarker).filter (· ≠ [])
  let uniq := (dedupFirst items).filter
    (fun s => decide (5 ≤ wordCount s) && decide (wordCount s ≤ 16))
  uniq.take 20

/-! ### Race-with-deadline dispatcher

`generateGreetingV2` and the text endpoint run
`withDeadline(Promise.any(racers), DEADLINE_MS)`.  A participant is
modelled by the instant it settles (milliseconds) and its settlement: a
provider result, or a rejection message.  `Promise.any` resolves with the
earliest fulfilled participant (ties broken by list order), and rejects
with an `AggregateError` — whose message V8 renders as
`"All promises were rejected"` — once the last participant has rejected;
`Promise.any([])` rejects that way immediately (time 0). -/

/-- `{ provider, text, latency_ms }` as produced by a race participant. -/
structure ProviderResult where
  provider : String
  text : String
  latencyMs : Nat
  deriving DecidableEq, Repr

/-- One race participant: when it settles and how. -/
structure Participant where
  time : Nat
  outcome : Except String ProviderResult
  deriving Repr

/-- Whether a settlement is a fulfillment. -/
def settledOk : Except String ProviderResult → Bool
  | .ok _ => true
  | .error _ => false

/-- Earliest participant of a list; on equal times the earlier entry wins. -/
def earliest? : List Participant → Option Participant
  | [] => none
  | p :: ps =>
    match earliest? ps with
    | none => some p
    | some q => if q.time < p.time then some q else some p

/-- The time the last participant settles (0 for no participants). -/
def lastSettle (ps : List Participant) : Nat :=
  (ps.map (·.time)).foldl max 0

/-- Model of `Promise.any`. -/
def promiseAny (ps : List Participant) : Participant :=
  match earliest? (ps.filter (fun p => settledOk p.outcome)) with
  | some w => w
  | none => ⟨lastSettle ps, .error "All promises were rejected"⟩

/-- Model of `withDeadline`: the inner settlement is surfaced when it
happens before the deadline timer fires, else `DEADLINE_EXCEEDED`. -/
def withDeadline (p : Participant) (ms : Nat) : Except String ProviderResult :=
  if p.time < ms then p.outcome else .error "DEADLINE_EXCEEDED"

/-- `withDeadline(Promise.any(racers), ms)`. -/
def raceWithDeadline (ps : List Participant) (ms : Nat) :
    Except String ProviderResult :=
  withDeadline (promiseAny ps) ms

/-- The greeting/text endpoints' catch-block: HTTP status and the `error`
field of the JSON body (`""` on success, where the body has no error). -/
def greetingResponse : Except String ProviderResult → Nat × String
  | .ok _ => (200, "")
  | .error e => if e = "DEADLINE_EXCEEDED" then (504, "DEADLINE_EXCEEDED")
                else (502, e)

/-! ### Greeting sanitizer (`sanitizeNoName` in `src/index.js`)

The sanitizer applies two regexes and a leading-punctuation trim:

* `^\s*(?:cześć|hej|witaj|siema|halo)\b[\p{L}\p{M}\s,!.?–—-]*` (`iu`);
* `\b(?:name|nameu|nameo|namee|namea|nameku)\b[\s,!.?]*` (`giu`), where
  each variant is the literal name with a suffix appended (regex-escaping
  of the name is the identity for plain alphabetic names);
* `^[,–—\-|:;!.\s]+`.

`\b` in ECMAScript tests membership of `[A-Za-z0-9_]` on the two adjacent
characters — even under the `u` flag — so a boundary after a non-ASCII
letter such as `ć` requires the next character to be an ASCII word
character. -/

/-- The fixed closed list `FORBIDDEN_HELLOS`. -/
def helloWords : List (List Char) :=
  ["cześć".data, "hej".data, "witaj".data, "siema".data, "halo".data]

/-- Case-insensitive literal match of `pat` against a prefix of the input,
returning the rest of the input and the last input character consumed. -/
def matchCIGo : List Char → List Char → Char → Option (List Char × Char)
  | [], l, last => some (l, last)
  | _ :: _, [], _ => none
  | p :: ps, c :: cs, _ =>
    if polLower c = polLower p then matchCIGo ps cs c else none

/-- `matchCIGo` with a dummy initial "last character" (all patterns used
are non-empty). -/
def matchCI (pat l : List Char) : Option (List Char × Char) :=
  matchCIGo pat l ' '

/-- The greeting regex's trailing class `[\p{L}\p{M}\s,!.?–—-]`. -/
def isHelloTail (c : Char) : Bool :=
  jsLetter c || jsIsSpace c || c = ',' || c = '!' || c = '.' || c = '?' ||
  c = '–' || c = '—' || c = '-'

/-- Try each greeting word, in the alternation's order, at the current
position; a word only matches when the `\b` after it holds. -/
def tryHello : List (List Char) → List Char → Option (List Char)
  | [], _ => none
  | h :: hs, l =>
    match matchCI h l with
    | some (rest, lc) =>
      if isWordChar lc ≠ isWordOpt rest.head? then some rest
      else tryHello hs l
    | none => tryHello hs l

/-- Model of `s.replace(helloRe, '')`: consume leading whitespace, one
greeting word with its boundary, then the trailing character class;
if the anchored pattern fails the string is unchanged. -/
def stripHello (l : List Char) : List Char :=
  match tryHello helloWords (l.dropWhile jsIsSpace) with
  | some rest => rest.dropWhile isHelloTail
  | none => l

/-- The fixed suffix-variant forms of the child's name
(`[name, name+'u', name+'o', name+'e', name+'a', name+'ku']`). -/
def nameForms (name : List Char) : List (List Char) :=
  [name, name ++ ['u'], name ++ ['o'], name ++ ['e'], name ++ ['a'],
   name ++ ['k', 'u']]

/-- The name regex's trailing class `[\s,!.?]`. -/
def isNameTail (c : Char) : Bool :=
  jsIsSpace c || c = ',' || c = '!' || c = '.' || c = '?'

/-- Try each name form, in alternation order, at the current position,
requiring the closing `\b`. -/
def tryForms : List (List Char) → List Char → Option (List Char × Char)
  | [], _ => none
  | f :: fs, l =>
    match matchCI f l with
    | some (rest, lc) =>
      if isWordChar lc ≠ isWordOpt rest.head? then some (rest, lc)
      else tryForms fs l
    | none => tryForms fs l

/-- Global scan of the name regex: at every position where the opening
`\b` holds, try the forms; on a match also consume the `[\s,!.?]*` run and
continue after it (tracking the previous character for later boundaries).
The fuel starts at the list length; every step consumes at least one
character, so it never runs out. -/
def stripNameGo (forms : List (List Char)) :
    Nat → Option Char → List Char → List Char
  | 0, _, l => l
  | _ + 1, _, [] => []
  | fuel + 1, prev, c :: cs =>
    if isWordOpt prev ≠ isWordChar c then
      match tryForms forms (c :: cs) with
      | some (rest, lc) =>
        let newPrev :=
          match (rest.takeWhile isNameTail).getLast? with
          | some d => some d
          | none => some lc
        stripNameGo forms fuel newPrev (rest.dropWhile isNameTail)
      | none => c :: stripNameGo forms fuel (some c) cs
    else c :: stripNameGo forms fuel (some c) cs

/-- Model of `s.replace(nameRe, '')`. -/
def stripName (name l : List Char) : List Char :=
  stripNameGo (nameForms name) l.length none l

/-- The leading-punctuation class `[,–—\-|:;!.\s]`. -/
def isLeadPunc (c : Char) : Bool :=
  c = ',' || c = '–' || c = '—' || c = '-' || c = '|' || c = ':' ||
  c = ';' || c = '!' || c = '.' || jsIsSpace c

/-- `sanitizeNoName` from `src/index.js` (the name pass runs only for a
non-empty name, as `if (name)` does). -/
def sanitizeNoName (name raw : List Char) : List Char :=
  let s1 := jsTrim (stripHello (jsTrim raw))
  let s2 := if name = [] then s1 else jsTrim (stripName name s1)
  jsTrim (s2.dropWhile isLeadPunc)

/-- The tail of the greeting pipeline:
`finalText = sanitizeNoName(name, picked) || picked`. -/
def finalGreeting (name picked : List Char) : List Char :=
  if sanitizeNoName name picked = [] then picked
  else sanitizeNoName name picked

/-! ### ASR accuracy scoring (`POST /asr`)

The route computes `accuracy = expectedText ? jacc(recognizedText,
expectedText) : 0` with a local `norm`/`jacc` pair: `norm` lowercases and
replaces every character outside `[\p{L}\p{M}0-9\s]` by a space before
collapsing whitespace; `jacc` rounds `100 ×` the token-set Jaccard index
(100 for two empty token sets).  `Math.round` on the JS float quotient is
modelled as rounding of the exact rational. -/

/-- The `[\p{L}\p{M}0-9\s]` class of the ASR `norm` (letters restricted as
in `jsLetter`; combining marks do not occur in the inputs considered). -/
def isAsrKeep (c : Char) : Bool :=
  jsLetter c || c.isDigit || jsIsSpace c

/-- `norm` from the ASR route. -/
def asrNorm (l : List Char) : List Char :=
  jsTrim (squeeze ((l.map polLower).map
    (fun c => if isAsrKeep c then c else ' ')))

/-- Token set of the ASR normalization. -/
def asrTokenSet (l : List Char) : Finset (List Char) :=
  (spaceTokens (asrNorm l)).toFinset

/-- `Math.round`: round half away from zero — for the non-negative values
arising here, `⌊x + 1/2⌋`. -/
def jsRound (q : ℚ) : ℤ :=
  ⌊q + mkRat 1 2⌋

/-- `jacc` from the ASR route: `Math.round(100 × Jaccard)`, with 100 for
two empty token sets. -/
def asrJacc (a b : List Char) : ℤ :=
  let A := asrTokenSet a
  let B := asrTokenSet b
  if A.card = 0 ∧ B.card = 0 then 100
  else jsRound (mkRat (100 * (A ∩ B).card : ℤ)
    (A.card + B.card - (A ∩ B).card))

/-- The `accuracy` field of the ASR response: 0 when no expected text was
supplied with the request. -/
def asrAccuracy (recognized expected : List Char) : ℤ :=
  if expected = [] then 0 else asrJacc recognized expected

/-! ### Greeting history (`recentGreetings`)

The map from profile key to the up-to-20 most recent greetings.  The only
mutation in the source is
`recentGreetings.set(profileKey, [finalText, ...history].slice(0, 20))`
at the end of a successful `generateGreetingV2`; reachability below has
exactly that operation as its only step. -/

/-- The in-memory greeting-history map, total over profile keys (a missing
key reads as `[]`, as `recentGreetings.get(k) || []` does). -/
def GreetHistory : Type := String → List String

/-- The map at process start: `new Map()`. -/
def emptyHistory : GreetHistory := fun _ => []

/-- The single mutation: prepend the final greeting for the profile key
and truncate to 20. -/
def recordGreeting (m : GreetHistory) (k t : String) : GreetHistory :=
  fun k' => if k' = k then (t :: m k).take 20 else m k'

/-- States of `recentGreetings` reachable across any sequence of
operations of the program: the map starts empty, and the greeting endpoint
after a successful generation performs the only mutation. -/
inductive HistoryReachable : GreetHistory → Prop
  | init : HistoryReachable emptyHistory
  | step (m : GreetHistory) (k t : String) :
      HistoryReachable m → HistoryReachable (recordGreeting m k t)

/-! ### Motivation tightener (`tightenMotivation`)

The hard limiter of the motivation endpoint, stage by stage:

1. remove the characters `["“”„”'()]`, collapse whitespace, trim;
2. remove spans delimited by characters of `[«»„”"']` (non-greedy global
   replace; an unpaired opener is left in place), collapse, trim;
3. split on `(?<=[.!?…])\s+`, keep at most the first two parts, join with
   a space, trim;
4. keep only the first character matching
   `[\p{Extended_Pictographic}️]`;
5. if longer than the budget, slice to it and strip a trailing
   `\s+\S*` (the partial word) — when the slice has no whitespace the
   pattern does not match and the mid-word cut stands — then trim;
6. append `'.'` unless the text already ends in `[.!?…]`. -/

/-- The characters removed outright by stage 1: `["“”„”'()]`. -/
def isQuote1 (c : Char) : Bool :=
  c = '"' || c = '“' || c = '”' || c = '„' || c = '\'' || c = '(' || c = ')'

/-- Stage 1. -/
def mtStripQuotes (l : List Char) : List Char :=
  jsTrim (squeeze (l.filter (fun c => !isQuote1 c)))

/-- The span-delimiter class of stage 2: `[«»„”"']`. -/
def isQuote2 (c : Char) : Bool :=
  c = '«' || c = '»' || c = '„' || c = '”' || c = '"' || c = '\''

/-- One pass of `.replace(/[«»„”"'].*?[«»„”"']/g, '')`: outside a span
characters are kept; a delimiter opens a span buffered until the next
delimiter closes (and discards) it; an unclosed span is emitted verbatim,
as the regex then has no match there. -/
def rmSpans : Option (List Char) → List Char → List Char
  | none, [] => []
  | some pending, [] => pending.reverse
  | none, c :: cs =>
    if isQuote2 c then rmSpans (some [c]) cs else c :: rmSpans none cs
  | some pending, c :: cs =>
    if isQuote2 c then rmSpans none cs
    else rmSpans (some (c :: pending)) cs

/-- Stage 2. -/
def mtStripSpans (l : List Char) : List Char :=
  jsTrim (squeeze (rmSpans none l))

/-- Sentence-terminal punctuation `[.!?…]`. -/
def isTerminal (c : Char) : Bool :=
  c = '.' || c = '!' || c = '?' || c = '…'

/-- Does the reversed accumulator end (in input order) with a terminal? -/
def headTerminal : List Char → Bool
  | t :: _ => isTerminal t
  | [] => false

/-- Scanner for `.split(/(?<=[.!?…])\s+/).filter(Boolean)`: a whitespace
character directly after a terminal starts a separator run; `inSep` means
the run is still being consumed.  The accumulator is reversed. -/
def splitSentGo (inSep : Bool) (cur : List Char) :
    List Char → List (List Char)
  | [] => if cur.isEmpty then [] else [cur.reverse]
  | c :: cs =>
    if inSep then
      if jsIsSpace c then splitSentGo true cur cs
      else splitSentGo false [c] cs
    else
      if jsIsSpace c ∧ headTerminal cur then
        cur.reverse :: splitSentGo true [] cs
      else splitSentGo false (c :: cur) cs

/-- The sentence-like segments of a string. -/
def splitSentences (l : List Char) : List (List Char) :=
  splitSentGo false [] l

/-- Stage 3: keep at most the first two segments. -/
def mtTwoSentences (l : List Char) : List Char :=
  jsTrim (List.intercalate [' '] ((splitSentences l).take 2))

/-- Representative model of `[\p{Extended_Pictographic}️]`: the main
emoji blocks plus the variation selector; exact on every code point
exercised here. -/
def isEmojiChar (c : Char) : Bool :=
  c.toNat = 0xFE0F || (0x231A ≤ c.toNat ∧ c.toNat ≤ 0x231B) ||
  (0x2600 ≤ c.toNat ∧ c.toNat ≤ 0x27BF) || c.toNat = 0x2B50 ||
  c.toNat = 0x2B55 || (0x1F000 ≤ c.toNat ∧ c.toNat ≤ 0x1FAFF)

/-- `s.replace(emojiRe, m => (++seen > 1 ? '' : m))`: keep the first
matching character, delete every later one. -/
def keepFirstEmoji (seen : Bool) : List Char → List Char
  | [] => []
  | c :: cs =>
    if isEmojiChar c then
      if seen then keepFirstEmoji true cs
      else c :: keepFirstEmoji true cs
    else c :: keepFirstEmoji seen cs

/-- Stage 4. -/
def mtOneEmoji (l : List Char) : List Char :=
  keepFirstEmoji false l

/-- `.replace(/\s+\S*$/, '')`: drop the trailing non-space run and the
whitespace run before it; when the string holds no whitespace the pattern
has no match and the string is returned whole. -/
def dropTrailingWord (l : List Char) : List Char :=
  if (rdropWhile (fun c => !jsIsSpace c) l).isEmpty then l
  else rdropWhile jsIsSpace (rdropWhile (fun c => !jsIsSpace c) l)

/-- Stage 5: the character cap (JS counts UTF-16 units; the model counts
scalar values, which agree on the inputs exercised). -/
def mtTruncate (maxChars : Nat) (l : List Char) : List Char :=
  if maxChars < l.length then jsTrim (dropTrailingWord (l.take maxChars))
  else l

/-- Does the string end in sentence-terminal punctuation? -/
def endsTerminal (l : List Char) : Bool :=
  match l.getLast? with
  | some c => isTerminal c
  | none => false

/-- Stage 6: close with a period when no terminal is present. -/
def mtClosePeriod (l : List Char) : List Char :=
  if endsTerminal l then l else l ++ ['.']

/-- Stages 1–4 composed: the text reaching the character cap. -/
def mtBeforeCap (l : List Char) : List Char :=
  mtOneEmoji (mtTwoSentences (mtStripSpans (mtStripQuotes l)))

/-- `tightenMotivation` from the motivation endpoint's file; an empty
input returns unchanged (`if (!s) return s`). -/
def tightenMotivation (l : List Char) (maxChars : Nat) : List Char :=
  if l = [] then l
  else mtClosePeriod (mtTruncate maxChars (mtBeforeCap l))

/-- Number of emoji-class characters in a string. -/
def countEmoji (l : List Char) : Nat :=
  (l.filter isEmojiChar).length

/-! ### Supporting lemmas -/

theorem earliest?_mem {l : List Participant} {p : Participant}
    (h : earliest? l = some p) : p ∈ l := by
  induction l with
  | nil => simp [earliest?] at h
  | cons q qs ih =>
    simp only [earliest?] at h
    cases hq : earliest? qs with
    | none => rw [hq] at h; cases h; exact List.mem_cons_self _ _
    | some r =>
      rw [hq] at h
      dsimp only at h
      by_cases hlt : r.time < q.time
      · rw [if_pos hlt] at h; cases h; exact List.mem_cons_of_mem _ (ih hq)
      · rw [if_neg hlt] at h; cases h; exact List.mem_cons_self _ _

theorem init_le_foldl_max (l : List Nat) (a : Nat) : a ≤ l.foldl max a := by
  induction l generalizing a with
  | nil => exact Nat.le_refl a
  | cons x xs ih => exact Nat.le_trans (Nat.le_max_left a x) (ih (max a x))

theorem mem_le_foldl_max (l : List Nat) (a : Nat) :
    ∀ x ∈ l, x ≤ l.foldl max a := by
  induction l generalizing a with
  | nil => intro x hx; cases hx
  | cons y ys ih =>
    intro x hx
    rcases List.mem_cons.mp hx with rfl | hx
    · exact Nat.le_trans (Nat.le_max_right a x) (init_le_foldl_max ys (max a x))
    · exact ih (max a y) x hx

theorem mem_dedupFirstGo :
    ∀ (fuel : Nat) (l : List (List Char)) (y : List Char),
      y ∈ dedupFirstGo fuel l → y ∈ l := by
  intro fuel
  induction fuel with
  | zero => intro l y hy; simpa [dedupFirstGo] using hy
  | succ n ih =>
    intro l y hy
    cases l with
    | nil => simp [dedupFirstGo] at hy
    | cons x xs =>
      simp only [dedupFirstGo, List.mem_cons] at hy
      rcases hy with rfl | hy
      · exact List.mem_cons_self _ _
      · exact List.mem_cons_of_mem _ (List.mem_of_mem_filter (ih _ _ hy))

theorem nodup_dedupFirstGo :
    ∀ (fuel : Nat) (l : List (List Char)), l.length ≤ fuel →
      (dedupFirstGo fuel l).Nodup := by
  intro fuel
  induction fuel with
  | zero =>
    intro l hl
    have : l = [] := List.length_eq_zero.mp (Nat.le_zero.mp hl)
    subst this; simp [dedupFirstGo]
  | succ n ih =>
    intro l hl
    cases l with
    | nil => simp [dedupFirstGo]
    | cons x xs =>
      simp only [dedupFirstGo]
      refine List.nodup_cons.mpr ⟨?_, ?_⟩
      · intro hx
        have hmem := mem_dedupFirstGo _ _ _ hx
        have := List.of_mem_filter hmem
        simp at this
      · refine ih _ (Nat.le_trans (List.length_filter_le _ _) ?_)
        exact Nat.le_of_succ_le_succ hl

theorem novel_fold_mem (history : List (List Char)) (S : List (List Char)) :
    ∀ (l : List (List Char)) (acc : List Char × ℚ),
      (acc.1 = [] ∨ acc.1 ∈ S) → (∀ x ∈ l, x ∈ S) →
      ((l.foldl (novelStep history) acc).1 = [] ∨
        (l.foldl (novelStep history) acc).1 ∈ S) := by
  intro l
  induction l with
  | nil => intro acc hacc _; simpa using hacc
  | cons c cs ih =>
    intro acc hacc hsub
    simp only [List.foldl_cons]
    refine ih _ ?_ (fun x hx => hsub x (List.mem_cons_of_mem _ hx))
    unfold novelStep
    by_cases hlt :
        ((history.map (fun h => jaccard c h)).foldl max 0) < acc.2
    · rw [if_pos hlt]; exact Or.inr (hsub c (List.mem_cons_self _ _))
    · rw [if_neg hlt]; exact hacc

theorem rdropWhile_sublist (p : Char → Bool) (l : List Char) :
    List.Sublist (rdropWhile p l) l := by
  have h : List.Sublist (l.reverse.dropWhile p) l.reverse :=
    List.dropWhile_sublist _
  have h2 := h.reverse
  rwa [List.reverse_reverse] at h2

theorem jsTrim_sublist (l : List Char) : List.Sublist (jsTrim l) l :=
  (rdropWhile_sublist _ _).trans (List.dropWhile_sublist _)

theorem dropTrailingWord_sublist (l : List Char) :
    List.Sublist (dropTrailingWord l) l := by
  unfold dropTrailingWord
  by_cases h : (rdropWhile (fun c => !jsIsSpace c) l).isEmpty
  · rw [if_pos h]
  · rw [if_neg h]
    exact (rdropWhile_sublist _ _).trans (rdropWhile_sublist _ _)

theorem mtTruncate_sublist (m : Nat) (l : List Char) :
    List.Sublist (mtTruncate m l) l := by
  unfold mtTruncate
  by_cases h : m < l.length
  · rw [if_pos h]
    exact ((jsTrim_sublist _).trans (dropTrailingWord_sublist _)).trans
      (List.take_sublist _ _)
  · rw [if_neg h]

theorem mtTruncate_length (m : Nat) (l : List Char) :
    (mtTruncate m l).length ≤ m := by
  unfold mtTruncate
  by_cases h : m < l.length
  · rw [if_pos h]
    exact Nat.le_trans
      (((jsTrim_sublist _).trans (dropTrailingWord_sublist _)).length_le)
      (List.length_take_le _ _)
  · rw [if_neg h]
    exact Nat.not_lt.mp h

theorem mtClosePeriod_length (l : List Char) :
    (mtClosePeriod l).length ≤ l.length + 1 := by
  unfold mtClosePeriod
  by_cases h : endsTerminal l
  · rw [if_pos h]; exact Nat.le_succ _
  · rw [if_neg h]; simp

theorem endsTerminal_mtClosePeriod (l : List Char) :
    endsTerminal (mtClosePeriod l) = true := by
  unfold mtClosePeriod
  by_cases h : endsTerminal l
  · rw [if_pos h]; exact h
  · rw [if_neg h]
    unfold endsTerminal
    rw [List.getLast?_concat]
    rfl

theorem countEmoji_keepTrue (l : List Char) :
    countEmoji (keepFirstEmoji true l) = 0 := by
  induction l with
  | nil => rfl
  | cons c cs ih =>
    show countEmoji (if isEmojiChar c then keepFirstEmoji true cs
        else c :: keepFirstEmoji true cs) = 0
    by_cases hc : isEmojiChar c
    · rw [if_pos hc]; exact ih
    · rw [if_neg hc]
      unfold countEmoji at ih ⊢
      simpa [List.filter_cons, hc] using ih

theorem countEmoji_keepFalse (l : List Char) :
    countEmoji (keepFirstEmoji false l) ≤ 1 := by
  induction l with
  | nil => exact Nat.zero_le 1
  | cons c cs ih =>
    show countEmoji (if isEmojiChar c then c :: keepFirstEmoji true cs
        else c :: keepFirstEmoji false cs) ≤ 1
    by_cases hc : isEmojiChar c
    · rw [if_pos hc]
      have h0 : countEmoji (keepFirstEmoji true cs) = 0 := countEmoji_keepTrue cs
      unfold countEmoji at h0 ⊢
      simp only [List.filter_cons, hc, if_true, List.length_cons, h0]
      omega
    · rw [if_neg hc]
      unfold countEmoji at ih ⊢
      simpa [List.filter_cons, hc] using ih

theorem countEmoji_sublist {l₁ l₂ : List Char} (h : List.Sublist l₁ l₂) :
    countEmoji l₁ ≤ countEmoji l₂ :=
  (h.filter _).length_le

theorem countEmoji_mtClosePeriod (l : List Char) :
    countEmoji (mtClosePeriod l) = countEmoji l := by
  unfold mtClosePeriod
  by_cases h : endsTerminal l
  · rw [if_pos h]
  · rw [if_neg h]
    simp [countEmoji, List.filter_append, show isEmojiChar '.' = false from rfl]

theorem rdropWhile_decomp (p : Char → Bool) (l : List Char) :
    ∃ sp, l = rdropWhile p l ++ sp ∧ ∀ x ∈ sp, p x = true := by
  refine ⟨(l.reverse.takeWhile p).reverse, ?_, ?_⟩
  · unfold rdropWhile
    calc l = l.reverse.reverse := (List.reverse_reverse l).symm
    _ = (l.reverse.takeWhile p ++ l.reverse.dropWhile p).reverse := by
        rw [List.takeWhile_append_dropWhile]
    _ = (l.reverse.dropWhile p).reverse ++ (l.reverse.takeWhile p).reverse := by
        rw [List.reverse_append]
  · intro x hx
    exact List.mem_takeWhile_imp (List.mem_reverse.mp hx)

theorem head?_dropWhile_false (p : Char → Bool) (l : List Char) (c : Char)
    (h : (l.dropWhile p).head? = some c) : p c = false := by
  induction l with
  | nil => simp [List.dropWhile] at h
  | cons x xs ih =>
    by_cases hx : p x
    · rw [List.dropWhile_cons_of_pos hx] at h
      exact ih h
    · rw [List.dropWhile_cons_of_neg hx] at h
      simp only [List.head?_cons, Option.some.injEq] at h
      subst h
      simpa using hx

theorem rdropWhile_getLast?_false (p : Char → Bool) (l : List Char) (c : Char)
    (h : (rdropWhile p l).getLast? = some c) : p c = false := by
  unfold rdropWhile at h
  rw [List.getLast?_reverse] at h
  exact head?_dropWhile_false p l.reverse c h

theorem suffix_append_single {y r : List Char} (h : y <:+ r) (c : Char) :
    y ++ [c] <:+ r ++ [c] := by
  obtain ⟨w, hw⟩ := h
  exact ⟨w, by rw [← List.append_assoc, hw]⟩

theorem getLast?_some_of_ne_nil :
    ∀ (l : List Char), l ≠ [] → ∃ c, l.getLast? = some c
  | [], h => absurd rfl h
  | a :: as, _ => ⟨(a :: as).getLast (by simp), List.getLast?_eq_getLast _ _⟩

/-! ### Claim theorems -/

/-- Claim C1, counterexample: with zero participants the race settles with
the generic `AggregateError` message `"All promises were rejected"` and an
HTTP 502, not a distinct `"NO_PROVIDER"` error condition as the greeting
and text endpoints surface it. -/
theorem race_empty_not_no_provider :
    raceWithDeadline [] 1200 = Except.error "All promises were rejected" ∧
    raceWithDeadline [] 1200 ≠ Except.error "NO_PROVIDER" ∧
    greetingResponse (raceWithDeadline [] 1200)
      = (502, "All promises were rejected") := by
  refine ⟨rfl, ?_, rfl⟩
  intro hc
  have h1 : raceWithDeadline [] 1200
      = Except.error "All promises were rejected" := rfl
  rw [h1] at hc
  exact absurd (Except.error.inj hc) (by decide)

/-- Claim C1, amended: with zero participants (no provider configured) and
any positive deadline, the race fails immediately — at time 0, before the
deadline can fire — with the empty-`Promise.any` rejection, which the
endpoints map to HTTP 502; the failure is not `DEADLINE_EXCEEDED`. -/
theorem race_empty_rejects_immediately (ms : Nat) (h : 0 < ms) :
    raceWithDeadline [] ms = Except.error "All promises were rejected" ∧
    raceWithDeadline [] ms ≠ Except.error "DEADLINE_EXCEEDED" ∧
    greetingResponse (raceWithDeadline [] ms)
      = (502, "All promises were rejected") := by
  have h1 : raceWithDeadline [] ms
      = Except.error "All promises were rejected" := by
    unfold raceWithDeadline promiseAny withDeadline earliest? lastSettle
    simp [h]
  refine ⟨h1, ?_, by rw [h1]; rfl⟩
  rw [h1]
  intro hc
  exact absurd (Except.error.inj hc) (by decide)

/-- Witness for `race_empty_rejects_immediately` at the default 1200 ms
deadline. -/
theorem race_empty_rejects_immediately_witness :
    raceWithDeadline [] 1200 = Except.error "All promises were rejected" ∧
    raceWithDeadline [] 1200 ≠ Except.error "DEADLINE_EXCEEDED" ∧
    greetingResponse (raceWithDeadline [] 1200)
      = (502, "All promises were rejected") :=
  race_empty_rejects_immediately 1200 (by decide)

/-- Claim C2, counterexample: a single participant that fails 10 ms in,
with the default 1200 ms deadline.  No participant completes successfully
before the deadline, yet the race does not fail with `DEADLINE_EXCEEDED`:
`Promise.any` rejects early with the aggregate error and the endpoint
returns 502, not 504. -/
theorem race_all_fail_early_counterexample :
    settledOk (Except.error "GROQ_HTTP_500" : Except String ProviderResult)
      = false ∧
    raceWithDeadline [⟨10, Except.error "GROQ_HTTP_500"⟩] 1200
      = Except.error "All promises were rejected" ∧
    raceWithDeadline [⟨10, Except.error "GROQ_HTTP_500"⟩] 1200
      ≠ Except.error "DEADLINE_EXCEEDED" ∧
    greetingResponse (raceWithDeadline [⟨10, Except.error "GROQ_HTTP_500"⟩] 1200)
      = (502, "All promises were rejected") := by
  refine ⟨rfl, rfl, ?_, rfl⟩
  intro hc
  have h1 : raceWithDeadline [⟨10, Except.error "GROQ_HTTP_500"⟩] 1200
      = Except.error "All promises were rejected" := rfl
  rw [h1] at hc
  exact absurd (Except.error.inj hc) (by decide)

/-- Claim C2, amended: if no participant fulfills before the deadline and
at least one participant is still unsettled when the deadline fires (so
the race has not already rejected wholesale), the race fails with
`DEADLINE_EXCEEDED` and the greeting/text endpoints map it to HTTP 504
with error code `DEADLINE_EXCEEDED` in the body. -/
theorem race_deadline_exceeded_504 (ps : List Participant) (ms : Nat)
    (h1 : ∀ p ∈ ps, settledOk p.outcome = true → ms ≤ p.time)
    (h2 : ∃ p ∈ ps, ms ≤ p.time) :
    raceWithDeadline ps ms = Except.error "DEADLINE_EXCEEDED" ∧
    greetingResponse (raceWithDeadline ps ms)
      = (504, "DEADLINE_EXCEEDED") := by
  have hmain : ms ≤ (promiseAny ps).time := by
    unfold promiseAny
    cases hE : earliest? (ps.filter fun p => settledOk p.outcome) with
    | some w =>
      have hw := earliest?_mem hE
      have hw1 : w ∈ ps := List.mem_of_mem_filter hw
      have hw2 : settledOk w.outcome = true := by
        have := List.of_mem_filter hw
        simpa using this
      exact h1 w hw1 hw2
    | none =>
      obtain ⟨p, hp, hms⟩ := h2
      dsimp only [lastSettle]
      refine Nat.le_trans hms ?_
      exact mem_le_foldl_max _ 0 p.time (List.mem_map_of_mem _ hp)
  have hr : raceWithDeadline ps ms = Except.error "DEADLINE_EXCEEDED" := by
    unfold raceWithDeadline withDeadline
    rw [if_neg (Nat.not_lt.mpr hmain)]
  exact ⟨hr, by rw [hr]; rfl⟩

/-- Witness for `race_deadline_exceeded_504`: one participant that would
fulfill at 2000 ms, raced against a 1200 ms deadline. -/
theorem race_deadline_exceeded_504_witness :
    raceWithDeadline [⟨2000, Except.ok ⟨"groq", "Czytamy razem!", 2000⟩⟩] 1200
      = Except.error "DEADLINE_EXCEEDED" ∧
    greetingResponse
        (raceWithDeadline [⟨2000, Except.ok ⟨"groq", "Czytamy razem!", 2000⟩⟩] 1200)
      = (504, "DEADLINE_EXCEEDED") :=
  race_deadline_exceeded_504 _ _ (by decide) (by decide)

/-- Claim C5: novelty selection always returns a member of a non-empty
candidate list, and with an empty (or absent) history it returns exactly
the first candidate. -/
theorem chooseMostNovel_props (cands history : List (List Char))
    (h : cands ≠ []) :
    chooseMostNovel cands history ∈ cands ∧
    chooseMostNovel cands [] = cands.head h := by
  constructor
  · unfold chooseMostNovel
    by_cases hh : history.isEmpty
    · rw [if_pos hh]
      cases cands with
      | nil => exact absurd rfl h
      | cons a as => exact List.mem_cons_self _ _
    · rw [if_neg hh]
      show (if ((cands.foldl (novelStep history) ([], 1)).1).isEmpty then
          cands.headD [] else (cands.foldl (novelStep history) ([], 1)).1) ∈ cands
      have hb := novel_fold_mem history cands cands ([], 1)
        (Or.inl rfl) (fun x hx => hx)
      by_cases he : ((cands.foldl (novelStep history) ([], 1)).1).isEmpty
      · rw [if_pos he]
        cases cands with
        | nil => exact absurd rfl h
        | cons a as => exact List.mem_cons_self _ _
      · rw [if_neg he]
        rcases hb with hb | hb
        · exact absurd (by rw [hb]; rfl) he
        · exact hb
  · unfold chooseMostNovel
    rw [if_pos (by rfl)]
    cases cands with
    | nil => exact absurd rfl h
    | cons a as => rfl

/-- Witness for `chooseMostNovel_props` on a concrete candidate list and
history. -/
theorem chooseMostNovel_props_witness :
    chooseMostNovel ["ala ma kota".data, "pies je kość".data]
        ["ala ma kota".data] ∈ ["ala ma kota".data, "pies je kość".data] ∧
    chooseMostNovel ["ala ma kota".data, "pies je kość".data] []
      = (["ala ma kota".data, "pies je kość".data]).head (by decide) :=
  chooseMostNovel_props _ _ (by decide)

/-- Claim C6, counterexample: the token sets of `""` and `""` are
(vacuously) disjoint, yet `jaccard` returns 1, not 0 — the code treats two
empty token sets as maximally similar. -/
theorem jaccard_empty_disjoint_counterexample :
    tokenSet "".data ∩ tokenSet "".data = ∅ ∧
    jaccard "".data "".data = 1 ∧ jaccard "".data "".data ≠ 0 := by
  decide

/-- Claim C6, amended: `jaccard` is symmetric, equals 1 on any string with
itself, and equals 0 for two strings with disjoint normalized token sets
that are not both empty. -/
theorem jaccard_props (a b : List Char) :
    jaccard a b = jaccard b a ∧
    jaccard a a = 1 ∧
    (tokenSet a ∩ tokenSet b = ∅ →
      ¬((tokenSet a).card = 0 ∧ (tokenSet b).card = 0) →
      jaccard a b = 0) := by
  refine ⟨?_, ?_, ?_⟩
  · simp only [jaccard]
    by_cases h : (tokenSet a).card = 0 ∧ (tokenSet b).card = 0
    · rw [if_pos h, if_pos ⟨h.2, h.1⟩]
    · rw [if_neg h, if_neg (fun hc => h ⟨hc.2, hc.1⟩)]
      rw [Finset.inter_comm, Nat.add_comm]
  · simp only [jaccard]
    by_cases h : (tokenSet a).card = 0
    · rw [if_pos ⟨h, h⟩]
    · rw [if_neg (fun hc => h hc.1), Finset.inter_self, Nat.add_sub_cancel,
        Rat.mkRat_eq_div]
      push_cast
      exact div_self (by exact_mod_cast h)
  · intro hdisj hcard
    simp only [jaccard]
    rw [if_neg hcard, hdisj]
    simp [Rat.mkRat_eq_div]

/-- Witness for `jaccard_props`: two concrete strings with disjoint token
sets score 0. -/
theorem jaccard_props_witness :
    jaccard "ala ma kota".data "pies szczeka głośno".data = 0 :=
  (jaccard_props "ala ma kota".data "pies szczeka głośno".data).2.2
    (by decide) (by decide)

/-- Claim C7: `parseList` returns at most 20 candidates, all with
normalized word count in `[5, 16]`, without duplicates; on the concrete
two-line input the 5-word line is retained and `"- Krótko."` is excluded
by the word-count filter. -/
theorem parseList_props (t : List Char) :
    (parseList t).length ≤ 20 ∧
    (∀ s ∈ parseList t, 5 ≤ wordCount s ∧ wordCount s ≤ 16) ∧
    (parseList t).Nodup ∧
    parseList "- Ala czyta książkę codziennie wieczorem.\n- Krótko.".data
      = ["Ala czyta książkę codziennie wieczorem.".data] := by
  refine ⟨?_, ?_, ?_, by decide⟩
  · simp only [parseList]
    exact List.length_take_le _ _
  · intro s hs
    simp only [parseList] at hs
    have hs' := (List.take_sublist _ _).subset hs
    have hp := (List.mem_filter.mp hs').2
    rw [Bool.and_eq_true] at hp
    exact ⟨of_decide_eq_true hp.1, of_decide_eq_true hp.2⟩
  · simp only [parseList]
    refine List.Nodup.sublist (List.take_sublist _ _) ?_
    refine List.Nodup.filter _ ?_
    exact nodup_dedupFirstGo _ _ (Nat.le_refl _)

/-- Witness for `parseList_props`: the retained line indeed has word count
in `[5, 16]`. -/
theorem parseList_props_witness :
    5 ≤ wordCount "Ala czyta książkę codziennie wieczorem.".data ∧
    wordCount "Ala czyta książkę codziennie wieczorem.".data ≤ 16 :=
  (parseList_props
    "- Ala czyta książkę codziennie wieczorem.\n- Krótko.".data).2.1
    _ (by decide)

/-- `Math.round` of a value in `[0, 100]` stays in `[0, 100]`. -/
theorem jsRound_bounds {q : ℚ} (h0 : 0 ≤ q) (h1 : q ≤ 100) :
    0 ≤ jsRound q ∧ jsRound q ≤ 100 := by
  have hmk : (mkRat 1 2 : ℚ) = 1 / 2 := by
    rw [Rat.mkRat_eq_div]; norm_num
  unfold jsRound
  rw [hmk]
  constructor
  · apply Int.le_floor.mpr
    push_cast
    linarith
  · have hfl : (⌊q + 1 / 2⌋ : ℤ) < 101 := by
      apply Int.floor_lt.mpr
      push_cast
      linarith
    omega

/-- Claim C8: the ASR accuracy score is an integer in `[0, 100]` — the
rounded token-set Jaccard index times 100 — and it is 0 whenever no
expected text is supplied with the request. -/
theorem asr_accuracy_props (r e : List Char) :
    0 ≤ asrAccuracy r e ∧ asrAccuracy r e ≤ 100 ∧
    (e = [] → asrAccuracy r e = 0) ∧
    (e ≠ [] → asrAccuracy r e = asrJacc r e) := by
  have hjacc : 0 ≤ asrJacc r e ∧ asrJacc r e ≤ 100 := by
    simp only [asrJacc]
    by_cases hc : (asrTokenSet r).card = 0 ∧ (asrTokenSet e).card = 0
    · rw [if_pos hc]
      exact ⟨by norm_num, le_refl _⟩
    · rw [if_neg hc]
      have hiA : (asrTokenSet r ∩ asrTokenSet e).card ≤ (asrTokenSet r).card :=
        Finset.card_le_card Finset.inter_subset_left
      have hiB : (asrTokenSet r ∩ asrTokenSet e).card ≤ (asrTokenSet e).card :=
        Finset.card_le_card Finset.inter_subset_right
      have hAd : (asrTokenSet r).card ≤
          (asrTokenSet r).card + (asrTokenSet e).card -
            (asrTokenSet r ∩ asrTokenSet e).card := by
        rw [Nat.add_sub_assoc hiB]
        exact Nat.le_add_right _ _
      have hBd : (asrTokenSet e).card ≤
          (asrTokenSet r).card + (asrTokenSet e).card -
            (asrTokenSet r ∩ asrTokenSet e).card := by
        rw [Nat.add_comm, Nat.add_sub_assoc hiA]
        exact Nat.le_add_right _ _
      have hid : (asrTokenSet r ∩ asrTokenSet e).card ≤
          (asrTokenSet r).card + (asrTokenSet e).card -
            (asrTokenSet r ∩ asrTokenSet e).card :=
        Nat.le_trans hiA hAd
      have hd0 : 0 < (asrTokenSet r).card + (asrTokenSet e).card -
          (asrTokenSet r ∩ asrTokenSet e).card := by
        rcases Nat.eq_zero_or_pos ((asrTokenSet r).card + (asrTokenSet e).card -
          (asrTokenSet r ∩ asrTokenSet e).card) with hd | hd
        · exact absurd ⟨Nat.le_zero.mp (hd ▸ hAd), Nat.le_zero.mp (hd ▸ hBd)⟩ hc
        · exact hd
      have hdq : (0 : ℚ) < (((asrTokenSet r).card + (asrTokenSet e).card -
          (asrTokenSet r ∩ asrTokenSet e).card : ℕ) : ℚ) := by
        exact_mod_cast hd0
      refine jsRound_bounds ?_ ?_
      · rw [Rat.mkRat_eq_div]
        apply div_nonneg _ (le_of_lt hdq)
        push_cast
        positivity
      · rw [Rat.mkRat_eq_div, div_le_iff₀ hdq]
        have hcast : ((asrTokenSet r ∩ asrTokenSet e).card : ℚ) ≤
            (((asrTokenSet r).card + (asrTokenSet e).card -
              (asrTokenSet r ∩ asrTokenSet e).card : ℕ) : ℚ) := by
          exact_mod_cast hid
        push_cast
        push_cast at hcast
        linarith
  unfold asrAccuracy
  by_cases he : e = []
  · rw [if_pos he]
    exact ⟨le_refl 0, by norm_num, fun _ => rfl, fun hne => absurd he hne⟩
  · rw [if_neg he]
    exact ⟨hjacc.1, hjacc.2, fun hc => absurd hc he, fun _ => rfl⟩

/-- Witness for `asr_accuracy_props`: concrete recognized/expected pairs,
with and without expected text. -/
theorem asr_accuracy_props_witness :
    0 ≤ asrAccuracy "ala ma kota".data "ala ma psa".data ∧
    asrAccuracy "ala ma kota".data "ala ma psa".data ≤ 100 ∧
    asrAccuracy "ala ma kota".data [] = 0 :=
  ⟨(asr_accuracy_props "ala ma kota".data "ala ma psa".data).1,
   (asr_accuracy_props "ala ma kota".data "ala ma psa".data).2.1,
   (asr_accuracy_props "ala ma kota".data []).2.2.1 rfl⟩

/-- Claim C9: every reachable state of the greeting-history map keeps at
most 20 entries per profile key; the single mutation prepends the new
greeting (most-recent-first) and truncates to 20, leaving other keys
untouched. -/
theorem greeting_history_props :
    (∀ m, HistoryReachable m → ∀ k, (m k).length ≤ 20) ∧
    (∀ (m : GreetHistory) (k t : String),
      recordGreeting m k t k = (t :: m k).take 20) ∧
    (∀ (m : GreetHistory) (k t : String),
      (recordGreeting m k t k).head? = some t) ∧
    (∀ (m : GreetHistory) (k t k' : String), k' ≠ k →
      recordGreeting m k t k' = m k') := by
  refine ⟨?_, ?_, ?_, ?_⟩
  · intro m hm
    induction hm with
    | init => intro k; simp [emptyHistory]
    | step m k t hm ih =>
      intro k'
      unfold recordGreeting
      by_cases hk : k' = k
      · rw [if_pos hk]; exact List.length_take_le _ _
      · rw [if_neg hk]; exact ih k'
  · intro m k t; unfold recordGreeting; rw [if_pos rfl]
  · intro m k t; unfold recordGreeting; rw [if_pos rfl]; rfl
  · intro m k t k' hk; unfold recordGreeting; rw [if_neg hk]

/-- Witness for `greeting_history_props` on the empty map and one update. -/
theorem greeting_history_props_witness :
    (emptyHistory "zosia|6").length ≤ 20 ∧
    (recordGreeting emptyHistory "zosia|6" "Poczytamy bajkę?" "zosia|6").head?
      = some "Poczytamy bajkę?" :=
  ⟨greeting_history_props.1 emptyHistory HistoryReachable.init "zosia|6",
   greeting_history_props.2.2.1 emptyHistory "zosia|6" "Poczytamy bajkę?"⟩

/-- Claim C4: the sanitizer leaves the spec's own test input completely
unchanged.  `"Cześć"` survives because the ECMAScript `\b` after the
non-ASCII `ć` fails when a space follows, and `"Zosiu"` survives because
the variant list holds the literal name plus a suffix (`"Zosiau"`, …),
never the true inflection `"Zosiu"`.  The returned text therefore still
starts with a forbidden greeting word and still contains an inflected form
of the child's name. -/
theorem sanitize_zosia_unchanged :
    sanitizeNoName "Zosia".data "Cześć Zosiu, otwórzmy książkę!".data
      = "Cześć Zosiu, otwórzmy książkę!".data ∧
    (sanitizeNoName "Zosia".data "Cześć Zosiu, otwórzmy książkę!".data).take 5
      = "Cześć".data ∧
    "zosiu".data <:+: (sanitizeNoName "Zosia".data
        "Cześć Zosiu, otwórzmy książkę!".data).map polLower := by
  decide

/-- Claim C10: when the sanitizer reduces the picked candidate to the
empty string the pipeline returns the unsanitized candidate
(`finalText = cleaned || picked`), so the sanitization guarantee is not
unconditional: for the candidate `"Hej!"` (no name), the sanitizer yields
`""` and the endpoint returns `"Hej!"`, which begins with a forbidden
greeting word. -/
theorem finalGreeting_props :
    (∀ name picked, sanitizeNoName name picked = [] →
      finalGreeting name picked = picked) ∧
    (∀ name picked, sanitizeNoName name picked ≠ [] →
      finalGreeting name picked = sanitizeNoName name picked) ∧
    sanitizeNoName [] "Hej!".data = [] ∧
    finalGreeting [] "Hej!".data = "Hej!".data ∧
    ((finalGreeting [] "Hej!".data).map polLower).take 3 = "hej".data := by
  refine ⟨?_, ?_, by decide, by decide, by decide⟩
  · intro name picked h
    unfold finalGreeting
    rw [if_pos h]
  · intro name picked h
    unfold finalGreeting
    rw [if_neg h]

/-- Witness for `finalGreeting_props`: the fallback branch at the concrete
candidate. -/
theorem finalGreeting_props_witness :
    finalGreeting [] "Hej!".data = "Hej!".data :=
  finalGreeting_props.1 [] "Hej!".data (by decide)

set_option maxRecDepth 4000 in
/-- Claim C3, counterexample: a single 200-character word.  The truncation
regex `\s+\S*$` finds no whitespace, so the slice is kept whole — a
mid-word cut at exactly the cap — and the appended period makes the
output 161 characters, exceeding the 160-character cap. -/
theorem tighten_cap_counterexample :
    tightenMotivation (List.replicate 200 'a') 160
      = List.replicate 160 'a' ++ ['.'] ∧
    160 < (tightenMotivation (List.replicate 200 'a') 160).length :=
  ⟨by decide, by decide⟩

/-- Claim C3, amended: for every non-empty input the tightener's output
has at most one pictographic emoji and ends in sentence-terminal
punctuation; the output length is at most the cap plus one (the appended
period may exceed the cap by exactly one character); the sentence cut
keeps at most the first two segments at the point it is applied (emoji
removal afterwards can re-expose segment boundaries); and whenever the
capped slice contains whitespace, the truncated text ends at a whitespace
boundary of that slice (only a slice with no whitespace at all is cut
mid-word). -/
theorem tighten_amended_props (s : List Char) (h : s ≠ []) :
    countEmoji (tightenMotivation s 160) ≤ 1 ∧
    (tightenMotivation s 160).length ≤ 161 ∧
    endsTerminal (tightenMotivation s 160) = true ∧
    ((splitSentences (mtStripSpans (mtStripQuotes s))).take 2).length ≤ 2 ∧
    (160 < (mtBeforeCap s).length →
      (∃ c ∈ (mtBeforeCap s).take 160, jsIsSpace c = true) →
      mtTruncate 160 (mtBeforeCap s) = [] ∨
        ∃ c, jsIsSpace c = true ∧
          (mtTruncate 160 (mtBeforeCap s) ++ [c]) <:+:
            (mtBeforeCap s).take 160) := by
  have hrw : tightenMotivation s 160
      = mtClosePeriod (mtTruncate 160 (mtBeforeCap s)) := by
    unfold tightenMotivation
    rw [if_neg h]
  refine ⟨?_, ?_, ?_, List.length_take_le _ _, ?_⟩
  · rw [hrw, countEmoji_mtClosePeriod]
    exact Nat.le_trans (countEmoji_sublist (mtTruncate_sublist 160 _))
      (countEmoji_keepFalse _)
  · rw [hrw]
    have h1 := mtClosePeriod_length (mtTruncate 160 (mtBeforeCap s))
    have h2 := mtTruncate_length 160 (mtBeforeCap s)
    omega
  · rw [hrw]
    exact endsTerminal_mtClosePeriod _
  · intro h160 hsp
    have htr : mtTruncate 160 (mtBeforeCap s)
        = jsTrim (dropTrailingWord ((mtBeforeCap s).take 160)) := by
      unfold mtTruncate
      rw [if_pos h160]
    by_cases hE :
        (rdropWhile (fun c => !jsIsSpace c) ((mtBeforeCap s).take 160)).isEmpty
    · exfalso
      have ht1nil :
          rdropWhile (fun c => !jsIsSpace c) ((mtBeforeCap s).take 160) = [] :=
        List.isEmpty_iff.mp hE
      obtain ⟨c, hc, hcs⟩ := hsp
      have hrev : ((mtBeforeCap s).take 160).reverse.dropWhile
          (fun c => !jsIsSpace c) = [] := by
        unfold rdropWhile at ht1nil
        exact List.reverse_eq_nil_iff.mp ht1nil
      have hall := List.dropWhile_eq_nil_iff.mp hrev
      have hcontra := hall c (List.mem_reverse.mpr hc)
      rw [hcs] at hcontra
      simp at hcontra
    · set p := (mtBeforeCap s).take 160 with hpdef
      set t1 := rdropWhile (fun c => !jsIsSpace c) p with ht1
      have hdtw : dropTrailingWord p = rdropWhile jsIsSpace t1 := by
        unfold dropTrailingWord
        rw [← ht1, if_neg hE]
      obtain ⟨sp, hsp1, hsp2⟩ := rdropWhile_decomp jsIsSpace t1
      obtain ⟨sp0, hsp0, _⟩ := rdropWhile_decomp (fun c => !jsIsSpace c) p
      have ht1ne : t1 ≠ [] := fun hnil => hE (by rw [hnil]; rfl)
      obtain ⟨lc, hgl⟩ := getLast?_some_of_ne_nil t1 ht1ne
      have hlcsp : jsIsSpace lc = true := by
        have hfalse := rdropWhile_getLast?_false (fun c => !jsIsSpace c) p lc
          (by rw [← ht1]; exact hgl)
        simpa using hfalse
      cases hspc : sp with
      | nil =>
        exfalso
        have hreq : rdropWhile jsIsSpace t1 = t1 := by
          have h1 := hsp1
          rw [hspc, List.append_nil] at h1
          exact h1.symm
        have hfalse := rdropWhile_getLast?_false jsIsSpace t1 lc
          (by rw [hreq]; exact hgl)
        rw [hlcsp] at hfalse
        simp at hfalse
      | cons c0 sp' =>
        have hc0 : jsIsSpace c0 = true :=
          hsp2 c0 (by rw [hspc]; exact List.mem_cons_self _ _)
        have hpre1 : (rdropWhile jsIsSpace t1 ++ [c0]) <+: t1 := by
          refine ⟨sp', ?_⟩
          conv_rhs => rw [hsp1, hspc]
          simp
        have hpre2 : t1 <+: p := ⟨sp0, by rw [ht1]; exact hsp0.symm⟩
        rw [htr, hdtw]
        set r := rdropWhile jsIsSpace t1 with hrdef
        obtain ⟨sp2, hy1, hy2⟩ := rdropWhile_decomp jsIsSpace (r.dropWhile jsIsSpace)
        have hysuf : r.dropWhile jsIsSpace <:+ r := List.dropWhile_suffix _
        have hjt : jsTrim r = rdropWhile jsIsSpace (r.dropWhile jsIsSpace) := rfl
        cases hsp2c : sp2 with
        | nil =>
          right
          refine ⟨c0, hc0, ?_⟩
          have hf : jsTrim r = r.dropWhile jsIsSpace := by
            rw [hjt]
            have h1 := hy1
            rw [hsp2c, List.append_nil] at h1
            exact h1.symm
          rw [hf]
          exact ((suffix_append_single hysuf c0).isInfix).trans
            ((hpre1.trans hpre2).isInfix)
        | cons c2 sp2' =>
          right
          refine ⟨c2, hy2 c2 (by rw [hsp2c]; exact List.mem_cons_self _ _), ?_⟩
          have hpre4 : (jsTrim r ++ [c2]) <+: r.dropWhile jsIsSpace := by
            refine ⟨sp2', ?_⟩
            conv_rhs => rw [hy1, hsp2c]
            rw [hjt]
            simp
          have hinf : (jsTrim r ++ [c2]) <:+: r :=
            hpre4.isInfix.trans hysuf.isInfix
          have hrt1 : r <+: t1 := by
            refine ⟨c0 :: sp', ?_⟩
            conv_rhs => rw [hsp1, hspc]
          exact hinf.trans ((hrt1.trans hpre2).isInfix)

set_option maxRecDepth 4000 in
/-- Witness for `tighten_amended_props` at a concrete motivational text. -/
theorem tighten_amended_props_witness :
    countEmoji (tightenMotivation "Brawo! Czytasz coraz lepiej 🎉🎀".data 160)
      ≤ 1 ∧
    (tightenMotivation "Brawo! Czytasz coraz lepiej 🎉🎀".data 160).length
      ≤ 161 ∧
    endsTerminal (tightenMotivation "Brawo! Czytasz coraz lepiej 🎉🎀".data 160)
      = true ∧
    ((splitSentences (mtStripSpans
        (mtStripQuotes "Brawo! Czytasz coraz lepiej 🎉🎀".data))).take 2).length
      ≤ 2 ∧
    (160 < (mtBeforeCap "Brawo! Czytasz coraz lepiej 🎉🎀".data).length →
      (∃ c ∈ (mtBeforeCap "Brawo! Czytasz coraz lepiej 🎉🎀".data).take 160,
        jsIsSpace c = true) →
      mtTruncate 160 (mtBeforeCap "Brawo! Czytasz coraz lepiej 🎉🎀".data)
          = [] ∨
        ∃ c, jsIsSpace c = true ∧
          (mtTruncate 160
              (mtBeforeCap "Brawo! Czytasz coraz lepiej 🎉🎀".data) ++ [c]) <:+:
            (mtBeforeCap "Brawo! Czytasz coraz lepiej 🎉🎀".data).take 160) :=
  tighten_amended_props "Brawo! Czytasz coraz lepiej 🎉🎀".data (by decide)

end Poczytajmy
